import Mathlib

/-
Shallow embedding of the atrandi_quick_bc demultiplexer
(src/main.rs and src/countfile.rs).

Conventions of the embedding:
- Rust `String`/`&str` read and barcode data is ASCII sequence data and is
  modelled as `List Char`; byte slicing `&s[a..b]` becomes `(s.drop a).take b-a`.
- Rust `i32`/`usize` counters and scores are small and non-negative, so they
  are modelled as `Nat`.
- `HashMap` is modelled as an association list whose `insert` replaces the
  binding of an existing key (`insertAssoc`), and whose `get` is the first
  binding (`lookupAssoc`); a `HashSet` built with `from_iter` over a list
  contains exactly the elements of that list, so `set.contains(x)` for the
  whitelist's exact-match index is modelled as membership in `list`.
- Fallible or panicking paths are modelled with `Option` / explicit result
  constructors as noted at each definition.
-/

/-- Model of `HashMap::get`: the value bound to the first matching key. -/
def lookupAssoc {α β : Type} [DecidableEq α] : List (α × β) → α → Option β
  | [], _ => none
  | p :: rest, k => if k = p.1 then some p.2 else lookupAssoc rest k

/-- Model of `HashMap::insert`: replace the binding of an existing key,
otherwise append the new binding. -/
def insertAssoc {α β : Type} [DecidableEq α] : List (α × β) → α → β → List (α × β)
  | [], k, v => [(k, v)]
  | p :: rest, k, v => if k = p.1 then (k, v) :: rest else p :: insertAssoc rest k v

/-- `num_similar_elements` (main.rs:79): count of positions where the two
sequences carry the same byte.  The source loops over the indices of `a`
(and would index out of bounds if `b` were shorter); the embedding stops at
the end of either list, which agrees with the source whenever
`b.length >= a.length`, the only way the program calls it. -/
def num_similar_elements : List Char → List Char → Nat
  | [], _ => 0
  | _ :: _, [] => 0
  | a :: as, b :: bs => (if a = b then 1 else 0) + num_similar_elements as bs

/-- `BarcodeWhitelist` (main.rs:25): the ordered whitelist of one round and
the common barcode length.  The source also stores `set`, a `HashSet` built
from `list` used only for exact lookup; membership in that set coincides
with membership in `list`, so the embedding keeps only `list`. -/
structure BarcodeWhitelist where
  list : List (List Char)
  bc_length : Nat
deriving DecidableEq

/-- The loop body of `closest_bc_basewise` (main.rs:38): replace the running
best only on a strictly higher score, so the first entry with the maximum
score wins. -/
def bestStep (bc_to_match : List Char) (best : List Char × Nat) (cand : List Char) :
    List Char × Nat :=
  if best.2 < num_similar_elements bc_to_match cand then
    (cand, num_similar_elements bc_to_match cand)
  else
    best

/-- `closest_bc_basewise` (main.rs:35): linear scan keeping the first entry
with the strictly best position-wise score.  The source starts from
`list[0]` and would panic on an empty whitelist; the embedding returns
`none` there (the program never builds an empty round). -/
def BarcodeWhitelist.closest_bc_basewise (wl : BarcodeWhitelist) (bc_to_match : List Char) :
    Option (List Char × Nat) :=
  match wl.list with
  | [] => none
  | b0 :: rest =>
    some (rest.foldl (bestStep bc_to_match) (b0, num_similar_elements bc_to_match b0))

/-- `correct_to_whitelist` (main.rs:51): empty candidates fail; exact
whitelist members return immediately with the hard-coded score 8; otherwise
a same-length candidate is corrected to the basewise-closest entry if that
entry scores at least 6; anything else fails. -/
def BarcodeWhitelist.correct_to_whitelist (wl : BarcodeWhitelist) (bc_to_match : List Char) :
    Option (List Char × Nat) :=
  if bc_to_match.length = 0 then
    none
  else if bc_to_match ∈ wl.list then
    some (bc_to_match, 8)
  else if wl.bc_length = bc_to_match.length then
    match wl.closest_bc_basewise bc_to_match with
    | none => none
    | some m => if 6 ≤ m.2 then some m else none
  else
    none

/-- `AtrandiBarcodes` (main.rs:93): the four per-round whitelists.
`read_atrandi_barcodes` always builds exactly four rounds. -/
structure AtrandiBarcodes where
  rounds : List BarcodeWhitelist
deriving DecidableEq

/-- `extract_bc_optimistic_atrandi` (main.rs:161): reads of length at least
45 (strictly more than 36+8) yield the four 8-base windows at offsets 36,
24, 12 and 0; shorter reads yield nothing. -/
def extract_bc_optimistic_atrandi (bc_read : List Char) :
    Option (List Char × List Char × List Char × List Char) :=
  if 36 + 8 < bc_read.length then
    let barcode_4 := (bc_read.drop 0).take 8
    let barcode_3 := (bc_read.drop 12).take 8
    let barcode_2 := (bc_read.drop 24).take 8
    let barcode_1 := (bc_read.drop 36).take 8
    some (barcode_1, barcode_2, barcode_3, barcode_4)
  else
    none

/-- `get_correct_bc_from_read` (main.rs:127): extract the four windows,
correct window at offset 36 with round 0, offset 24 with round 1, offset 12
with round 2 and offset 0 with round 3, then keep the read only if the four
scores sum to strictly more than 7*4.  The source indexes `rounds[0..=3]`
(four rounds by construction); a missing round is modelled as `none`. -/
def AtrandiBarcodes.get_correct_bc_from_read (ab : AtrandiBarcodes) (bc_read : List Char) :
    Option (List Char × List Char × List Char × List Char) :=
  match extract_bc_optimistic_atrandi bc_read with
  | none => none
  | some barcode_tuple =>
    match ab.rounds.get? 0, ab.rounds.get? 1, ab.rounds.get? 2, ab.rounds.get? 3 with
    | some round0, some round1, some round2, some round3 =>
      match round0.correct_to_whitelist barcode_tuple.1,
            round1.correct_to_whitelist barcode_tuple.2.1,
            round2.correct_to_whitelist barcode_tuple.2.2.1,
            round3.correct_to_whitelist barcode_tuple.2.2.2 with
      | some c0, some c1, some c2, some c3 =>
        if 7 * 4 < c0.2 + c1.2 + c2.2 + c3.2 then
          some (c0.1, c1.1, c2.1, c3.1)
        else
          none
      | _, _, _, _ => none
    | _, _, _, _ => none

/-- The accumulating barcode histogram of `parse_to_fastq` (main.rs:269). -/
abbrev Hist : Type := List (List Char × Nat)

/-- The dot-joined cell barcode `format!("{}.{}.{}.{}", ...)` (main.rs:298). -/
def concat_bc (bc : List Char × List Char × List Char × List Char) : List Char :=
  bc.1 ++ ('.' :: (bc.2.1 ++ ('.' :: (bc.2.2.1 ++ ('.' :: bc.2.2.2)))))

/-- The histogram update of `parse_to_fastq` (main.rs:301): bump the count of
a seen barcode, or insert it with count 1. -/
def count_barcode (hist : Hist) (concat : List Char) : Hist :=
  match lookupAssoc hist concat with
  | some cnt => insertAssoc hist concat (cnt + 1)
  | none => insertAssoc hist concat 1

/-- One iteration of the read-pair loop of `parse_to_fastq` (main.rs:292):
correct the barcode from the second read's sequence and, on success, count
it; a failed read pair leaves the histogram unchanged (and is written to no
output). -/
def handle_read_pair (ab : AtrandiBarcodes) (hist : Hist) (seq_r2 : List Char) : Hist :=
  match ab.get_correct_bc_from_read seq_r2 with
  | some bc => count_barcode hist (concat_bc bc)
  | none => hist

/-- Outcome of the `parse_to_fastq` read loop: normal completion with the
final histogram, or the fatal `expect("No r2")` panic (main.rs:287) raised
when the second stream is exhausted while the first still has a record. -/
inductive DemuxResult where
  | ok (hist : Hist)
  | noR2
deriving DecidableEq

/-- The read-pair loop of `parse_to_fastq` (main.rs:273): iterate over the
first stream's records; after incrementing `read_count`, stop early when it
reaches 50000000 (main.rs:281); otherwise demand a record of the second
stream (fatal if missing) and process the pair.  A first stream that ends
while the second still has records simply ends the loop. -/
def parse_to_fastq_hist (ab : AtrandiBarcodes) :
    Nat → List (List Char) → List (List Char) → Hist → DemuxResult
  | _, [], _, hist => DemuxResult.ok hist
  | read_count, _ :: r1s, r2s, hist =>
    if read_count + 1 = 50000000 then
      DemuxResult.ok hist
    else
      match r2s with
      | [] => DemuxResult.noR2
      | r2 :: r2rest =>
        parse_to_fastq_hist ab (read_count + 1) r1s r2rest (handle_read_pair ab hist r2)

/-- Count looked up in the histogram, 0 when the barcode was never seen. -/
def histCount (hist : Hist) (bc : List Char) : Nat :=
  (lookupAssoc hist bc).getD 0

/-- Sum of all counts recorded in the histogram. -/
def histTotal (hist : Hist) : Nat :=
  (List.map (fun p => p.2) hist).sum

/-- An alignment record as `bam_to_counttable` (main.rs:376) consumes it:
its read name and its optional reference-sequence index. -/
structure BamRecord where
  name : List Char
  reference_sequence_id : Option Nat

/-- `name.split_once('_')` (main.rs:405): the parts before and after the
first underscore, or `none` when the name has no underscore (the source
makes that case fatal with `expect`). -/
def split_once_underscore : List Char → Option (List Char × List Char)
  | [] => none
  | c :: rest =>
    if c = '_' then
      some ([], rest)
    else
      match split_once_underscore rest with
      | some (a, b) => some (c :: a, b)
      | none => none

/-- The sparse count table of `bam_to_counttable` (main.rs:378): barcode to
(feature index to count). -/
abbrev CountTable : Type := List (List Char × List (Nat × Nat))

/-- One iteration of the record loop of `bam_to_counttable` (main.rs:399):
take the barcode before the first underscore of the name (`none` models the
fatal missing-underscore panic), map an unaligned record to the sentinel
feature `id_noname`, then `entry(bc).and_modify(insert (feature, 1))
.or_insert({feature: 1})` — the entry is always set to 1, never
incremented. -/
def count_record (id_noname : Nat) (table : CountTable) (record : BamRecord) :
    Option CountTable :=
  match split_once_underscore record.name with
  | none => none
  | some (bc, _) =>
    let feature_name : Nat :=
      match record.reference_sequence_id with
      | some seqid => seqid
      | none => id_noname
    some (match lookupAssoc table bc with
      | some cellmap => insertAssoc table bc (insertAssoc cellmap feature_name 1)
      | none => insertAssoc table bc [(feature_name, 1)])

/-- The counting phase of `bam_to_counttable` (main.rs:397): fold the record
loop over the alignment stream, starting from the empty table; `none` when
some record's name violates the underscore convention. -/
def bam_to_counttable_counts (id_noname : Nat) (records : List BamRecord) :
    Option CountTable :=
  records.foldlM (count_record id_noname) []

/-- The data rows of `matrix.mtx` written by `store_counttable`
(countfile.rs:42): for the cell at position `cellid` (0-based) of the key
order, one row `(cellid+1, feature+1, count)` per entry of its feature map.
`HashMap` iteration pairs each distinct key with its value, so the source's
`counts.get(list_cell[cellid]).unwrap()` is the map stored at position
`cellid`. -/
def matrix_rows_from (cellid : Nat) : CountTable → List (Nat × Nat × Nat)
  | [] => []
  | cell :: rest =>
    (List.map (fun q => (cellid + 1, q.1 + 1, q.2)) cell.2) ++ matrix_rows_from (cellid + 1) rest

/-- The data rows of `matrix.mtx` (after the header line), countfile.rs:42. -/
def store_counttable_matrix_rows (counts : CountTable) : List (Nat × Nat × Nat) :=
  matrix_rows_from 0 counts

/-- The lines of `barcodes.tsv` (countfile.rs:53): one per cell key, in the
same order as the matrix rows. -/
def store_counttable_barcode_lines (counts : CountTable) : List (List Char) :=
  List.map (fun p => p.1) counts

/-- The lines of `features.tsv` (countfile.rs:61): the feature names, in
table order (the caller appends the sentinel `*` before calling). -/
def store_counttable_feature_lines (name_of_features : List (List Char)) : List (List Char) :=
  name_of_features

/-
Concrete fixtures used by counterexamples and witnesses.
-/

/-- A one-entry round whitelist of 8-base barcodes. -/
def wlA : BarcodeWhitelist := { list := [String.toList "AAAAAAAA"], bc_length := 8 }

/-- A two-entry round whitelist of 8-base barcodes. -/
def wlAC : BarcodeWhitelist :=
  { list := [String.toList "AAAAAAAA", String.toList "CCCCCCCC"], bc_length := 8 }

/-- A one-entry round whitelist of 4-base barcodes. -/
def wl4 : BarcodeWhitelist := { list := [String.toList "AAAA"], bc_length := 4 }

/-- A one-entry round whitelist of 10-base barcodes. -/
def wl10 : BarcodeWhitelist := { list := [String.toList "AAAAAAAAAA"], bc_length := 10 }

/-- A four-round scheme whose rounds all accept only `AAAAAAAA`. -/
def schemeA : AtrandiBarcodes := { rounds := [wlA, wlA, wlA, wlA] }

/-- A one-entry round whitelist accepting only `CCCCCCCC`. -/
def wlC : BarcodeWhitelist := { list := [String.toList "CCCCCCCC"], bc_length := 8 }

/-- A one-entry round whitelist accepting only `GGGGGGGG`. -/
def wlG : BarcodeWhitelist := { list := [String.toList "GGGGGGGG"], bc_length := 8 }

/-- A one-entry round whitelist accepting only `TTTTTTTT`. -/
def wlT : BarcodeWhitelist := { list := [String.toList "TTTTTTTT"], bc_length := 8 }

/-- A four-round scheme with distinct single-entry whitelists per round. -/
def schemeACGT : AtrandiBarcodes := { rounds := [wlA, wlC, wlG, wlT] }

/-- Running maximum of the basewise scores of a suffix of the whitelist,
seeded with the score accumulated so far. -/
def maxScoreFrom (bc : List Char) (s : Nat) (l : List (List Char)) : Nat :=
  l.foldl (fun m c => max m (num_similar_elements bc c)) s

/-- Every count stored anywhere in the table equals 1. -/
def table_all_ones (table : CountTable) : Prop :=
  ∀ bc m, lookupAssoc table bc = some m → ∀ f v, lookupAssoc m f = some v → v = 1

/-- Whether a read's corrected barcode concatenates to the given cell
barcode. -/
def corrected_to (ab : AtrandiBarcodes) (bc : List Char) (r : List Char) : Bool :=
  decide ((ab.get_correct_bc_from_read r).map concat_bc = some bc)

/-- Whether a read passes barcode correction at all. -/
def correction_passed (ab : AtrandiBarcodes) (r : List Char) : Bool :=
  (ab.get_correct_bc_from_read r).isSome

/-- A 45-base read whose four windows all correct under `schemeA`
(scores 8, 7, 7, 7; aggregate 29). -/
def goodRead : List Char :=
  String.toList "AAAAAAAAGGGGAAAAAAACGGGGAAAAAAACGGGGAAAAAAACT"

/-- The dot-joined cell barcode that `goodRead` corrects to. -/
def goodBC : List Char := String.toList "AAAAAAAA.AAAAAAAA.AAAAAAAA.AAAAAAAA"

/-
Shared lemmas about the association-list model of HashMap and the
histogram update.
-/

/-- Looking up after an insert: the inserted key sees the new value, other
keys are unaffected. -/
theorem lookupAssoc_insertAssoc {α β : Type} [DecidableEq α]
    (m : List (α × β)) (k q : α) (v : β) :
    lookupAssoc (insertAssoc m k v) q = if q = k then some v else lookupAssoc m q := by
  induction m with
  | nil =>
    by_cases hq : q = k <;> simp [insertAssoc, lookupAssoc, hq]
  | cons p rest ih =>
    by_cases hk : k = p.1
    · by_cases hq : q = k
      · simp [insertAssoc, lookupAssoc, hk, hq]
      · have hqp : ¬ q = p.1 := fun h => hq (h.trans hk.symm)
        simp [insertAssoc, lookupAssoc, hk, hq, hqp]
    · by_cases hq : q = p.1
      · have hqk : ¬ q = k := fun h => hk (h ▸ hq)
        have hpk : ¬ p.1 = k := fun h => hqk (hq.trans h)
        simp [insertAssoc, lookupAssoc, hk, hq, hqk, hpk]
      · simp [insertAssoc, lookupAssoc, hk, hq, ih]

/-- The histogram update bumps the updated barcode by one and leaves every
other barcode's count unchanged. -/
theorem histCount_count_barcode (hist : Hist) (k q : List Char) :
    histCount (count_barcode hist k) q =
      if q = k then histCount hist k + 1 else histCount hist q := by
  unfold count_barcode histCount
  cases hl : lookupAssoc hist k with
  | some cnt =>
    rw [lookupAssoc_insertAssoc]
    by_cases hq : q = k <;> simp [hq, hl]
  | none =>
    rw [lookupAssoc_insertAssoc]
    by_cases hq : q = k <;> simp [hq, hl]

/-- The histogram update adds exactly one to the total of all counts. -/
theorem histTotal_count_barcode (hist : Hist) (k : List Char) :
    histTotal (count_barcode hist k) = histTotal hist + 1 := by
  induction hist with
  | nil => simp [count_barcode, lookupAssoc, insertAssoc, histTotal]
  | cons p rest ih =>
    by_cases hk : k = p.1
    · simp [count_barcode, lookupAssoc, insertAssoc, hk, histTotal]
      omega
    · have hne : ¬ k = p.1 := hk
      have hcons : count_barcode (p :: rest) k = p :: count_barcode rest k := by
        unfold count_barcode
        cases hl : lookupAssoc rest k <;>
          simp [lookupAssoc, insertAssoc, hne, hl]
      rw [hcons]
      simp only [histTotal, List.map_cons, List.sum_cons] at ih ⊢
      omega

/-
Claim C2: failure boundary of the fixed-offset extraction.
-/

/-- C2 counterexample: a read of exactly 44 bases.  The claim states that
every read of length 44 or more has its four windows extracted, but the
source's guard is strict (`len > 36+8`), so a 44-base read is rejected. -/
theorem C2_counterexample :
    (String.toList "AAAAAAAAGGGGAAAAAAAAGGGGAAAAAAAAGGGGAAAAAAAA").length = 44 ∧
    extract_bc_optimistic_atrandi
      (String.toList "AAAAAAAAGGGGAAAAAAAAGGGGAAAAAAAAGGGGAAAAAAAA") = none := by
  decide

/-- C2 (amended): extraction fails exactly when the read is at most 44 bases
long (rather than strictly shorter than 44); for every read of 45 or more
bases the four 8-base windows at byte offsets 36, 24, 12 and 0 are
extracted, with no out-of-bounds access. -/
theorem C2_extraction_amended (s : List Char) :
    (extract_bc_optimistic_atrandi s = none ↔ s.length ≤ 44) ∧
    (44 < s.length →
      extract_bc_optimistic_atrandi s =
        some ((s.drop 36).take 8, (s.drop 24).take 8, (s.drop 12).take 8, s.take 8)) := by
  have hiff : extract_bc_optimistic_atrandi s = none ↔ s.length ≤ 44 := by
    unfold extract_bc_optimistic_atrandi
    by_cases h : 36 + 8 < s.length
    · rw [if_pos h]
      constructor
      · intro hc
        exact absurd hc (by simp)
      · intro hle
        omega
    · rw [if_neg h]
      constructor
      · intro _
        omega
      · intro _
        rfl
  refine ⟨hiff, fun h => ?_⟩
  unfold extract_bc_optimistic_atrandi
  rw [if_pos (by omega)]
  simp

/-- C2 witness: a 45-base read has its windows extracted. -/
theorem C2_extraction_amended_witness :
    44 < (String.toList "TTTTTTTTACGTGGGGGGGGACGTCCCCCCCCACGTAAAAAAAAG").length ∧
    extract_bc_optimistic_atrandi
        (String.toList "TTTTTTTTACGTGGGGGGGGACGTCCCCCCCCACGTAAAAAAAAG") =
      some (((String.toList "TTTTTTTTACGTGGGGGGGGACGTCCCCCCCCACGTAAAAAAAAG").drop 36).take 8,
            ((String.toList "TTTTTTTTACGTGGGGGGGGACGTCCCCCCCCACGTAAAAAAAAG").drop 24).take 8,
            ((String.toList "TTTTTTTTACGTGGGGGGGGACGTCCCCCCCCACGTAAAAAAAAG").drop 12).take 8,
            (String.toList "TTTTTTTTACGTGGGGGGGGACGTCCCCCCCCACGTAAAAAAAAG").take 8) :=
  ⟨by decide,
   (C2_extraction_amended (String.toList "TTTTTTTTACGTGGGGGGGGACGTCCCCCCCCACGTAAAAAAAAG")).2
     (by decide)⟩

/-
Claim C6: exact whitelist members.
-/

/-- A non-empty exact whitelist member is returned unchanged with the
hard-coded score 8 (main.rs:58). -/
theorem correct_to_whitelist_exact (wl : BarcodeWhitelist) (b : List Char)
    (hmem : b ∈ wl.list) (hne : b ≠ []) :
    wl.correct_to_whitelist b = some (b, 8) := by
  have hlen : ¬ b.length = 0 := by simpa using hne
  unfold BarcodeWhitelist.correct_to_whitelist
  simp [hlen, hmem]

/-- C6 counterexample: a whitelist of 4-base barcodes.  The claim states the
score of an exact match equals `bc_length`, but the source returns the
constant 8 whatever the barcode length. -/
theorem C6_counterexample :
    String.toList "AAAA" ∈ wl4.list ∧ wl4.bc_length = 4 ∧
    wl4.correct_to_whitelist (String.toList "AAAA") ≠
      some (String.toList "AAAA", wl4.bc_length) ∧
    wl4.correct_to_whitelist (String.toList "AAAA") = some (String.toList "AAAA", 8) := by
  decide

/-- C6 (amended): for every non-empty barcode `b` verbatim in the whitelist,
`correct_to_whitelist` succeeds immediately and returns `b` itself with the
hard-coded score 8 (which coincides with `bc_length` only for the 8-base
Atrandi barcodes, not by definition). -/
theorem C6_exact_match_amended (wl : BarcodeWhitelist) (b : List Char)
    (hmem : b ∈ wl.list) (hne : b ≠ []) :
    wl.correct_to_whitelist b = some (b, 8) :=
  correct_to_whitelist_exact wl b hmem hne

/-- C6 witness: the 8-base entry of `wlA` corrects to itself with score 8. -/
theorem C6_exact_match_amended_witness :
    wlA.correct_to_whitelist (String.toList "AAAAAAAA") =
      some (String.toList "AAAAAAAA", 8) :=
  C6_exact_match_amended wlA (String.toList "AAAAAAAA") (by decide) (by decide)

/-
Shared lemmas about the basewise nearest-whitelist scan.
-/

/-- The seed never exceeds the running maximum. -/
theorem le_maxScoreFrom (bc : List Char) (l : List (List Char)) (s : Nat) :
    s ≤ maxScoreFrom bc s l := by
  induction l generalizing s with
  | nil => exact Nat.le_refl s
  | cons c t ih =>
    exact Nat.le_trans (Nat.le_max_left s (num_similar_elements bc c)) (ih _)

/-- An upper bound on the seed and on every score bounds the running
maximum. -/
theorem maxScoreFrom_le (bc : List Char) (l : List (List Char)) (s k : Nat)
    (hs : s ≤ k) (hl : ∀ x ∈ l, num_similar_elements bc x ≤ k) :
    maxScoreFrom bc s l ≤ k := by
  induction l generalizing s with
  | nil => exact hs
  | cons c t ih =>
    refine ih _ (Nat.max_le.mpr ⟨hs, hl c (by simp)⟩) ?_
    intro x hx
    exact hl x (by simp [hx])

/-- A basewise score never exceeds the length of the candidate. -/
theorem num_similar_elements_le_length : ∀ (a b : List Char),
    num_similar_elements a b ≤ a.length
  | [], _ => by simp [num_similar_elements]
  | _ :: _, [] => by simp [num_similar_elements]
  | a :: as, b :: bs => by
    simp only [num_similar_elements, List.length_cons]
    have h := num_similar_elements_le_length as bs
    split <;> omega

/-- The scan step on a strictly better candidate switches to it. -/
theorem bestStep_lt (bc b c : List Char)
    (h : num_similar_elements bc b < num_similar_elements bc c) :
    bestStep bc (b, num_similar_elements bc b) c = (c, num_similar_elements bc c) := by
  unfold bestStep
  rw [if_pos h]

/-- The scan step on a candidate that is not strictly better keeps the
running best. -/
theorem bestStep_ge (bc b c : List Char)
    (h : ¬ num_similar_elements bc b < num_similar_elements bc c) :
    bestStep bc (b, num_similar_elements bc b) c = (b, num_similar_elements bc b) := by
  unfold bestStep
  rw [if_neg h]

/-- The score of the scan's result is the maximum basewise score seen. -/
theorem bestStep_foldl_snd (bc : List Char) (rest : List (List Char)) (b : List Char) :
    (rest.foldl (bestStep bc) (b, num_similar_elements bc b)).2 =
      maxScoreFrom bc (num_similar_elements bc b) rest := by
  induction rest generalizing b with
  | nil => rfl
  | cons c t ih =>
    rw [List.foldl_cons]
    by_cases h : num_similar_elements bc b < num_similar_elements bc c
    · rw [bestStep_lt bc b c h, ih c]
      unfold maxScoreFrom
      rw [List.foldl_cons, max_eq_right (Nat.le_of_lt h)]
    · rw [bestStep_ge bc b c h, ih b]
      unfold maxScoreFrom
      rw [List.foldl_cons, max_eq_left (Nat.le_of_not_lt h)]

/-- The scan's result is the first whitelist entry whose basewise score
equals the maximum: strict improvement means ties keep the earlier entry. -/
theorem bestStep_foldl_find (bc : List Char) (rest : List (List Char)) (b : List Char) :
    (b :: rest).find? (fun c => num_similar_elements bc c ==
        (rest.foldl (bestStep bc) (b, num_similar_elements bc b)).2) =
      some (rest.foldl (bestStep bc) (b, num_similar_elements bc b)).1 := by
  induction rest generalizing b with
  | nil =>
    simp [List.find?]
  | cons c t ih =>
    by_cases h : num_similar_elements bc b < num_similar_elements bc c
    · have hstep : (c :: t).foldl (bestStep bc) (b, num_similar_elements bc b) =
          t.foldl (bestStep bc) (c, num_similar_elements bc c) := by
        rw [List.foldl_cons, bestStep_lt bc b c h]
      rw [hstep]
      have hsnd := bestStep_foldl_snd bc t c
      have hle : num_similar_elements bc c ≤
          (t.foldl (bestStep bc) (c, num_similar_elements bc c)).2 := by
        rw [hsnd]
        exact le_maxScoreFrom bc t _
      have hb : (num_similar_elements bc b ==
          (t.foldl (bestStep bc) (c, num_similar_elements bc c)).2) = false := by
        rw [beq_eq_false_iff_ne]
        omega
      rw [List.find?_cons, hb]
      exact ih c
    · have hstep : (c :: t).foldl (bestStep bc) (b, num_similar_elements bc b) =
          t.foldl (bestStep bc) (b, num_similar_elements bc b) := by
        rw [List.foldl_cons, bestStep_ge bc b c h]
      rw [hstep]
      have hsnd := bestStep_foldl_snd bc t b
      have hble : num_similar_elements bc b ≤
          (t.foldl (bestStep bc) (b, num_similar_elements bc b)).2 := by
        rw [hsnd]
        exact le_maxScoreFrom bc t _
      by_cases hb : num_similar_elements bc b =
          (t.foldl (bestStep bc) (b, num_similar_elements bc b)).2
      · have hbt : (num_similar_elements bc b ==
            (t.foldl (bestStep bc) (b, num_similar_elements bc b)).2) = true := by
          rw [beq_iff_eq]
          exact hb
        have h2 : (some b : Option (List Char)) =
            some ((t.foldl (bestStep bc) (b, num_similar_elements bc b)).1) := by
          have hfirst := ih b
          rw [List.find?_cons, hbt] at hfirst
          exact hfirst
        rw [List.find?_cons, hbt]
        exact h2
      · have hbf : (num_similar_elements bc b ==
            (t.foldl (bestStep bc) (b, num_similar_elements bc b)).2) = false := by
          rw [beq_eq_false_iff_ne]
          exact hb
        have hcf : (num_similar_elements bc c ==
            (t.foldl (bestStep bc) (b, num_similar_elements bc b)).2) = false := by
          rw [beq_eq_false_iff_ne]
          have hcb : num_similar_elements bc c ≤ num_similar_elements bc b :=
            Nat.le_of_not_lt h
          omega
        have hfirst := ih b
        rw [List.find?_cons, hbf] at hfirst
        rw [List.find?_cons, hbf, List.find?_cons, hcf]
        exact hfirst

/-- On a non-empty whitelist the scan returns the fold over the tail. -/
theorem closest_bc_basewise_eq (wl : BarcodeWhitelist) (bc b0 : List Char)
    (rest : List (List Char)) (hl : wl.list = b0 :: rest) :
    wl.closest_bc_basewise bc =
      some (rest.foldl (bestStep bc) (b0, num_similar_elements bc b0)) := by
  unfold BarcodeWhitelist.closest_bc_basewise
  rw [hl]

/-- For a non-empty candidate that is no exact member and has the whitelist
length, correction reduces to the thresholded basewise scan. -/
theorem correct_to_whitelist_inexact (wl : BarcodeWhitelist) (bc : List Char)
    (hbc : ¬ bc.length = 0) (hnm : bc ∉ wl.list) (hlen : wl.bc_length = bc.length) :
    wl.correct_to_whitelist bc =
      match wl.closest_bc_basewise bc with
      | none => none
      | some m => if 6 ≤ m.2 then some m else none := by
  unfold BarcodeWhitelist.correct_to_whitelist
  rw [if_neg hbc, if_neg hnm, if_pos hlen]

/-
Claim C7: inexact correction returns the first entry with the maximum
basewise agreement, gated by the threshold 6.
-/

/-- C7: for a non-empty candidate of the whitelist's length that is not an
exact entry, where `m` is the maximum position-wise agreement over the
whitelist and `e` the first entry (in list order) attaining it, correction
returns `(e, m)` exactly when `6 ≤ m` and fails otherwise; in particular
with whitelist `[AAAAAAAA, CCCCCCCC]` and candidate `AAAAAAAC` it returns
`(AAAAAAAA, 7)`. -/
theorem C7_first_max_correction (wl : BarcodeWhitelist) (bc : List Char) (m : Nat)
    (e : List Char)
    (hbc : bc ≠ [])
    (hnm : bc ∉ wl.list)
    (hlen : bc.length = wl.bc_length)
    (hlens : ∀ x ∈ wl.list, x.length = wl.bc_length)
    (hm : (List.map (num_similar_elements bc) wl.list).foldl max 0 = m)
    (he : wl.list.find? (fun c => num_similar_elements bc c == m) = some e) :
    wl.correct_to_whitelist bc = if 6 ≤ m then some (e, m) else none := by
  cases hl : wl.list with
  | nil =>
    rw [hl] at he
    simp [List.find?] at he
  | cons b0 rest =>
    have hm2 : maxScoreFrom bc (num_similar_elements bc b0) rest = m := by
      rw [hl, List.map_cons, List.foldl_cons] at hm
      rw [List.foldl_map] at hm
      simpa [maxScoreFrom] using hm
    have hsnd := bestStep_foldl_snd bc rest b0
    have hr2 : (rest.foldl (bestStep bc) (b0, num_similar_elements bc b0)).2 = m := by
      rw [hsnd, hm2]
    have hfind := bestStep_foldl_find bc rest b0
    rw [hr2] at hfind
    rw [hl] at he
    have hr1 : (rest.foldl (bestStep bc) (b0, num_similar_elements bc b0)).1 = e := by
      rw [hfind] at he
      exact Option.some.inj he
    have hpair : rest.foldl (bestStep bc) (b0, num_similar_elements bc b0) = (e, m) := by
      have := Prod.mk.eta
        (p := rest.foldl (bestStep bc) (b0, num_similar_elements bc b0))
      rw [← this, hr1, hr2]
    have hlen0 : ¬ bc.length = 0 := by simpa using hbc
    rw [correct_to_whitelist_inexact wl bc hlen0 hnm hlen.symm,
      closest_bc_basewise_eq wl bc b0 rest hl, hpair]

/-- C7 witness: the spec's own scenario, whitelist `[AAAAAAAA, CCCCCCCC]`,
candidate `AAAAAAAC`, maximum score 7 attained first by `AAAAAAAA`. -/
theorem C7_first_max_correction_witness :
    wlAC.correct_to_whitelist (String.toList "AAAAAAAC") =
      some (String.toList "AAAAAAAA", 7) := by
  have h := C7_first_max_correction wlAC (String.toList "AAAAAAAC") 7
    (String.toList "AAAAAAAA") (by decide) (by decide) (by decide) (by decide)
    (by decide) (by decide)
  simpa using h

/-
Claim C10: invariant of a successful correction.
-/

/-- C10 counterexample: a whitelist of 10-base barcodes.  All entries have
length `bc_length` and the whitelist is non-empty, yet a successful
correction returns score 9, contradicting the claimed upper bound 8. -/
theorem C10_counterexample :
    wl10.list ≠ [] ∧
    (String.toList "AAAAAAAAAA").length = wl10.bc_length ∧
    wl10.correct_to_whitelist (String.toList "AAAAAAAAAC") =
      some (String.toList "AAAAAAAAAA", 9) ∧
    ¬ (9 : Nat) ≤ 8 := by
  decide

/-- C10 (amended): whenever correction succeeds on a non-empty whitelist
whose entries all have length `bc_length`, the returned barcode is a
whitelist entry and the score lies between 6 and `max 8 bc_length` (the
bound 8 of the claim holds only when `bc_length ≤ 8`). -/
theorem C10_invariant_amended (wl : BarcodeWhitelist) (b matched : List Char) (score : Nat)
    (hne : wl.list ≠ [])
    (hlens : ∀ x ∈ wl.list, x.length = wl.bc_length)
    (h : wl.correct_to_whitelist b = some (matched, score)) :
    matched ∈ wl.list ∧ 6 ≤ score ∧ score ≤ max 8 wl.bc_length := by
  unfold BarcodeWhitelist.correct_to_whitelist at h
  by_cases h0 : b.length = 0
  · rw [if_pos h0] at h
    cases h
  rw [if_neg h0] at h
  by_cases h1 : b ∈ wl.list
  · rw [if_pos h1] at h
    have hp : b = matched ∧ 8 = score := by
      have := Option.some.inj h
      exact ⟨congrArg Prod.fst this, congrArg Prod.snd this⟩
    obtain ⟨hb, hs⟩ := hp
    subst hb
    subst hs
    exact ⟨h1, by omega, le_max_left 8 wl.bc_length⟩
  rw [if_neg h1] at h
  by_cases h2 : wl.bc_length = b.length
  · rw [if_pos h2] at h
    cases hl : wl.list with
    | nil => exact absurd hl hne
    | cons b0 rest =>
      rw [closest_bc_basewise_eq wl b b0 rest hl] at h
      have hite : (if 6 ≤ (rest.foldl (bestStep b) (b0, num_similar_elements b b0)).2 then
          some (rest.foldl (bestStep b) (b0, num_similar_elements b b0)) else none) =
          some (matched, score) := h
      by_cases h6 : 6 ≤ (rest.foldl (bestStep b) (b0, num_similar_elements b b0)).2
      · rw [if_pos h6] at hite
        have hr : rest.foldl (bestStep b) (b0, num_similar_elements b b0) =
            (matched, score) := Option.some.inj hite
        have hmem : matched ∈ b0 :: rest := by
          have hfind := bestStep_foldl_find b rest b0
          have hin := List.mem_of_find?_eq_some hfind
          rw [hr] at hin
          exact hin
        have hsnd := bestStep_foldl_snd b rest b0
        have hscore : score = maxScoreFrom b (num_similar_elements b b0) rest := by
          rw [← hsnd, hr]
        have hbound : score ≤ max 8 wl.bc_length := by
          have hub : maxScoreFrom b (num_similar_elements b b0) rest ≤ b.length :=
            maxScoreFrom_le b rest _ b.length (num_similar_elements_le_length b b0)
              (fun x _ => num_similar_elements_le_length b x)
          calc score ≤ b.length := hscore ▸ hub
            _ = wl.bc_length := h2.symm
            _ ≤ max 8 wl.bc_length := le_max_right 8 wl.bc_length
        have h6s : 6 ≤ score := by
          rw [hr] at h6
          exact h6
        exact ⟨hmem, h6s, hbound⟩
      · rw [if_neg h6] at hite
        cases hite
  · rw [if_neg h2] at h
    cases h

/-- C10 witness: an inexact 8-base candidate corrected by `wlA` lands in the
whitelist with score 7, inside the bounds. -/
theorem C10_invariant_amended_witness :
    wlA.correct_to_whitelist (String.toList "AAAAAAAC") =
      some (String.toList "AAAAAAAA", 7) ∧
    (String.toList "AAAAAAAA") ∈ wlA.list ∧ 6 ≤ 7 ∧ 7 ≤ max 8 wlA.bc_length :=
  ⟨by decide,
   (C10_invariant_amended wlA (String.toList "AAAAAAAC") (String.toList "AAAAAAAA") 7
      (by decide) (by decide) (by decide)).1,
   (C10_invariant_amended wlA (String.toList "AAAAAAAC") (String.toList "AAAAAAAA") 7
      (by decide) (by decide) (by decide)).2.1,
   (C10_invariant_amended wlA (String.toList "AAAAAAAC") (String.toList "AAAAAAAA") 7
      (by decide) (by decide) (by decide)).2.2⟩

/-
Claim C1: the aggregate-score gate of get_correct_bc_from_read.
-/

/-- C1 counterexample: all four windows correct with score 7, so the
aggregate is exactly 28; the claim says such a read is returned, but the
source's gate is strict (`total_m > 7*4`), so it is rejected. -/
theorem C1_counterexample :
    extract_bc_optimistic_atrandi
        (String.toList "AAAAAAACGGGGAAAAAAACGGGGAAAAAAACGGGGAAAAAAACT") =
      some (String.toList "AAAAAAAC", String.toList "AAAAAAAC",
            String.toList "AAAAAAAC", String.toList "AAAAAAAC") ∧
    wlA.correct_to_whitelist (String.toList "AAAAAAAC") =
      some (String.toList "AAAAAAAA", 7) ∧
    schemeA.rounds = [wlA, wlA, wlA, wlA] ∧
    7 + 7 + 7 + 7 = 28 ∧
    schemeA.get_correct_bc_from_read
      (String.toList "AAAAAAACGGGGAAAAAAACGGGGAAAAAAACGGGGAAAAAAACT") = none := by
  decide

/-- C1 (amended): when the four extracted windows all correct successfully,
the read is returned exactly when the aggregate score is strictly greater
than 28 (at least 29), and rejected when the aggregate is at most 28 —
the boundary aggregate 28 is rejected, not accepted. -/
theorem C1_threshold_amended (ab : AtrandiBarcodes) (read : List Char)
    (w0 w1 w2 w3 : BarcodeWhitelist) (b1 b2 b3 b4 : List Char)
    (c0 c1 c2 c3 : List Char × Nat)
    (hr : ab.rounds = [w0, w1, w2, w3])
    (hx : extract_bc_optimistic_atrandi read = some (b1, b2, b3, b4))
    (h0 : w0.correct_to_whitelist b1 = some c0)
    (h1 : w1.correct_to_whitelist b2 = some c1)
    (h2 : w2.correct_to_whitelist b3 = some c2)
    (h3 : w3.correct_to_whitelist b4 = some c3) :
    ab.get_correct_bc_from_read read =
      if 28 < c0.2 + c1.2 + c2.2 + c3.2 then some (c0.1, c1.1, c2.1, c3.1) else none := by
  unfold AtrandiBarcodes.get_correct_bc_from_read
  rw [hx, hr]
  simp only [List.get?]
  rw [h0, h1, h2, h3]

/-- C1 witness: four exact matches give aggregate 32, strictly above 28, and
the corrected tuple is returned. -/
theorem C1_threshold_amended_witness :
    schemeA.get_correct_bc_from_read
        (String.toList "AAAAAAAAGGGGAAAAAAAAGGGGAAAAAAAAGGGGAAAAAAAAT") =
      some (String.toList "AAAAAAAA", String.toList "AAAAAAAA",
            String.toList "AAAAAAAA", String.toList "AAAAAAAA") := by
  have h := C1_threshold_amended schemeA
    (String.toList "AAAAAAAAGGGGAAAAAAAAGGGGAAAAAAAAGGGGAAAAAAAAT")
    wlA wlA wlA wlA
    (String.toList "AAAAAAAA") (String.toList "AAAAAAAA")
    (String.toList "AAAAAAAA") (String.toList "AAAAAAAA")
    (String.toList "AAAAAAAA", 8) (String.toList "AAAAAAAA", 8)
    (String.toList "AAAAAAAA", 8) (String.toList "AAAAAAAA", 8)
    (by decide) (by decide) (by decide) (by decide) (by decide) (by decide)
  simpa using h

/-
Claim C3: round-to-offset mapping and the synthetic-read round trip.
-/

/-- Slicing an 8-base window out of an assembled read at the offset where it
was placed returns exactly that window. -/
theorem window_at (pre win post : List Char) (o : Nat)
    (hp : pre.length = o) (hw : win.length = 8) :
    ((pre ++ win ++ post).drop o).take 8 = win := by
  rw [List.append_assoc, List.drop_left' hp, List.take_left' hw]

/-- Extraction on a read assembled as `e3 sp1 e2 sp2 e1 sp3 e0 tail` with
8-base barcodes, 4-base spacers and a non-empty tail returns the tuple
`(e0, e1, e2, e3)` of windows at offsets 36, 24, 12 and 0. -/
theorem extract_assembled (e0 e1 e2 e3 sp1 sp2 sp3 tail : List Char)
    (hl0 : e0.length = 8) (hl1 : e1.length = 8) (hl2 : e2.length = 8) (hl3 : e3.length = 8)
    (hs1 : sp1.length = 4) (hs2 : sp2.length = 4) (hs3 : sp3.length = 4)
    (ht : tail ≠ []) :
    extract_bc_optimistic_atrandi (e3 ++ sp1 ++ e2 ++ sp2 ++ e1 ++ sp3 ++ e0 ++ tail) =
      some (e0, e1, e2, e3) := by
  have htail : 0 < tail.length := List.length_pos.mpr ht
  have hlen : 36 + 8 < (e3 ++ sp1 ++ e2 ++ sp2 ++ e1 ++ sp3 ++ e0 ++ tail).length := by
    simp [List.length_append, hl0, hl1, hl2, hl3, hs1, hs2, hs3]
    omega
  have e36 : (((e3 ++ sp1 ++ e2 ++ sp2 ++ e1 ++ sp3 ++ e0 ++ tail).drop 36)).take 8 = e0 := by
    have hsplit : e3 ++ sp1 ++ e2 ++ sp2 ++ e1 ++ sp3 ++ e0 ++ tail =
        (e3 ++ sp1 ++ e2 ++ sp2 ++ e1 ++ sp3) ++ e0 ++ tail := by
      simp [List.append_assoc]
    rw [hsplit]
    exact window_at _ e0 tail 36 (by simp [List.length_append, hl1, hl2, hl3, hs1, hs2, hs3])
      hl0
  have e24 : (((e3 ++ sp1 ++ e2 ++ sp2 ++ e1 ++ sp3 ++ e0 ++ tail).drop 24)).take 8 = e1 := by
    have hsplit : e3 ++ sp1 ++ e2 ++ sp2 ++ e1 ++ sp3 ++ e0 ++ tail =
        (e3 ++ sp1 ++ e2 ++ sp2) ++ e1 ++ (sp3 ++ e0 ++ tail) := by
      simp [List.append_assoc]
    rw [hsplit]
    exact window_at _ e1 _ 24 (by simp [List.length_append, hl2, hl3, hs1, hs2]) hl1
  have e12 : (((e3 ++ sp1 ++ e2 ++ sp2 ++ e1 ++ sp3 ++ e0 ++ tail).drop 12)).take 8 = e2 := by
    have hsplit : e3 ++ sp1 ++ e2 ++ sp2 ++ e1 ++ sp3 ++ e0 ++ tail =
        (e3 ++ sp1) ++ e2 ++ (sp2 ++ e1 ++ sp3 ++ e0 ++ tail) := by
      simp [List.append_assoc]
    rw [hsplit]
    exact window_at _ e2 _ 12 (by simp [List.length_append, hl3, hs1]) hl2
  have e00 : ((e3 ++ sp1 ++ e2 ++ sp2 ++ e1 ++ sp3 ++ e0 ++ tail)).take 8 = e3 := by
    have hsplit : e3 ++ sp1 ++ e2 ++ sp2 ++ e1 ++ sp3 ++ e0 ++ tail =
        e3 ++ (sp1 ++ e2 ++ sp2 ++ e1 ++ sp3 ++ e0 ++ tail) := by
      simp [List.append_assoc]
    rw [hsplit, List.take_left' hl3]
  unfold extract_bc_optimistic_atrandi
  rw [if_pos hlen]
  simp only [List.drop_zero]
  rw [e36, e24, e12, e00]

/-- C3 counterexample: a read assembled from the four round whitelist
entries at the correct offsets with 4-base spacers and nothing after the
barcode block is 44 bases long, so extraction (strictly greater than 44)
fails and the claimed round trip returns nothing instead of the four
entries. -/
theorem C3_counterexample :
    schemeACGT.get_correct_bc_from_read
        (String.toList "TTTTTTTT" ++ String.toList "ACGT" ++ String.toList "GGGGGGGG" ++
         String.toList "ACGT" ++ String.toList "CCCCCCCC" ++ String.toList "ACGT" ++
         String.toList "AAAAAAAA") = none ∧
    schemeACGT.get_correct_bc_from_read
        (String.toList "TTTTTTTT" ++ String.toList "ACGT" ++ String.toList "GGGGGGGG" ++
         String.toList "ACGT" ++ String.toList "CCCCCCCC" ++ String.toList "ACGT" ++
         String.toList "AAAAAAAA") ≠
      some (String.toList "AAAAAAAA", String.toList "CCCCCCCC",
            String.toList "GGGGGGGG", String.toList "TTTTTTTT") := by
  decide

/-- C3 (amended): round 0 corrects the window at offset 36, round 1 at 24,
round 2 at 12, round 3 at 0; for every synthetic read assembled from four
8-base whitelist entries at those offsets with arbitrary 4-base spacers
*and at least one trailing base* (so the read exceeds 44 bases),
`get_correct_bc_from_read` returns exactly those entries in
first-attached-to-last order. -/
theorem C3_roundtrip_amended (ab : AtrandiBarcodes) (w0 w1 w2 w3 : BarcodeWhitelist)
    (e0 e1 e2 e3 sp1 sp2 sp3 tail : List Char)
    (hr : ab.rounds = [w0, w1, w2, w3])
    (hm0 : e0 ∈ w0.list) (hm1 : e1 ∈ w1.list) (hm2 : e2 ∈ w2.list) (hm3 : e3 ∈ w3.list)
    (hl0 : e0.length = 8) (hl1 : e1.length = 8) (hl2 : e2.length = 8) (hl3 : e3.length = 8)
    (hs1 : sp1.length = 4) (hs2 : sp2.length = 4) (hs3 : sp3.length = 4)
    (ht : tail ≠ []) :
    ab.get_correct_bc_from_read (e3 ++ sp1 ++ e2 ++ sp2 ++ e1 ++ sp3 ++ e0 ++ tail) =
      some (e0, e1, e2, e3) := by
  have hx := extract_assembled e0 e1 e2 e3 sp1 sp2 sp3 tail hl0 hl1 hl2 hl3 hs1 hs2 hs3 ht
  have hc0 := correct_to_whitelist_exact w0 e0 hm0 (by intro h; rw [h] at hl0; cases hl0)
  have hc1 := correct_to_whitelist_exact w1 e1 hm1 (by intro h; rw [h] at hl1; cases hl1)
  have hc2 := correct_to_whitelist_exact w2 e2 hm2 (by intro h; rw [h] at hl2; cases hl2)
  have hc3 := correct_to_whitelist_exact w3 e3 hm3 (by intro h; rw [h] at hl3; cases hl3)
  unfold AtrandiBarcodes.get_correct_bc_from_read
  rw [hx, hr]
  simp only [List.get?]
  rw [hc0, hc1, hc2, hc3]
  norm_num

/-- C3 witness: the distinct-entry scheme on an assembled read with spacers
`ACGT` and trailing base `G` recovers the four entries in logical order. -/
theorem C3_roundtrip_amended_witness :
    schemeACGT.get_correct_bc_from_read
        (String.toList "TTTTTTTT" ++ String.toList "ACGT" ++ String.toList "GGGGGGGG" ++
         String.toList "ACGT" ++ String.toList "CCCCCCCC" ++ String.toList "ACGT" ++
         String.toList "AAAAAAAA" ++ String.toList "G") =
      some (String.toList "AAAAAAAA", String.toList "CCCCCCCC",
            String.toList "GGGGGGGG", String.toList "TTTTTTTT") :=
  C3_roundtrip_amended schemeACGT wlA wlC wlG wlT
    (String.toList "AAAAAAAA") (String.toList "CCCCCCCC")
    (String.toList "GGGGGGGG") (String.toList "TTTTTTTT")
    (String.toList "ACGT") (String.toList "ACGT") (String.toList "ACGT")
    (String.toList "G")
    (by decide) (by decide) (by decide) (by decide) (by decide)
    (by decide) (by decide) (by decide) (by decide) (by decide) (by decide) (by decide)
    (by decide)

/-
Claim C4: every stored count is exactly 1.
-/

/-- Processing one alignment record preserves the all-ones invariant: the
update inserts the constant 1 whether or not the entry existed. -/
theorem count_record_preserves (id_noname : Nat) (table table2 : CountTable)
    (record : BamRecord) (hinv : table_all_ones table)
    (h : count_record id_noname table record = some table2) :
    table_all_ones table2 := by
  unfold count_record at h
  cases hsplit : split_once_underscore record.name with
  | none =>
    rw [hsplit] at h
    cases h
  | some bc_rest =>
    rw [hsplit] at h
    have h2 := Option.some.inj h
    intro bc m hm f v hv
    rw [← h2] at hm
    cases hl : lookupAssoc table bc_rest.1 with
    | some cellmap =>
      rw [hl, lookupAssoc_insertAssoc] at hm
      by_cases hbc : bc = bc_rest.1
      · rw [if_pos hbc] at hm
        have hmm := Option.some.inj hm
        rw [← hmm, lookupAssoc_insertAssoc] at hv
        by_cases hf : f = (match record.reference_sequence_id with
          | some seqid => seqid
          | none => id_noname)
        · rw [if_pos hf] at hv
          exact (Option.some.inj hv).symm
        · rw [if_neg hf] at hv
          exact hinv bc_rest.1 cellmap hl f v hv
      · rw [if_neg hbc] at hm
        exact hinv bc m hm f v hv
    | none =>
      rw [hl, lookupAssoc_insertAssoc] at hm
      by_cases hbc : bc = bc_rest.1
      · rw [if_pos hbc] at hm
        have hmm := Option.some.inj hm
        rw [← hmm] at hv
        simp only [lookupAssoc] at hv
        by_cases hf : f = (match record.reference_sequence_id with
          | some seqid => seqid
          | none => id_noname)
        · rw [if_pos hf] at hv
          exact (Option.some.inj hv).symm
        · rw [if_neg hf] at hv
          cases hv
      · rw [if_neg hbc] at hm
        exact hinv bc m hm f v hv

/-- Folding the record loop from an all-ones table yields an all-ones
table. -/
theorem foldlM_count_record_preserves (id_noname : Nat) :
    ∀ (records : List BamRecord) (table table2 : CountTable),
      table_all_ones table →
      records.foldlM (count_record id_noname) table = some table2 →
      table_all_ones table2 := by
  intro records
  induction records with
  | nil =>
    intro table table2 hinv h
    have := Option.some.inj h
    rw [← this]
    exact hinv
  | cons r rs ih =>
    intro table table2 hinv h
    rw [List.foldlM_cons] at h
    cases hr : count_record id_noname table r with
    | none =>
      rw [hr] at h
      cases h
    | some tmid =>
      rw [hr] at h
      exact ih tmid table2 (count_record_preserves id_noname table tmid r hinv hr) h

/-- C4: for every alignment stream accepted by the aggregator, every entry
of the resulting sparse count matrix equals exactly 1 — the per-record
update sets the (barcode, feature) entry to 1, never increments it. -/
theorem C4_counts_are_one (id_noname : Nat) (records : List BamRecord)
    (table : CountTable) (bc : List Char) (m : List (Nat × Nat)) (f v : Nat)
    (h : bam_to_counttable_counts id_noname records = some table)
    (hbc : lookupAssoc table bc = some m) (hf : lookupAssoc m f = some v) :
    v = 1 := by
  have hinv : table_all_ones [] := by
    intro bc m hm f v hv
    cases hm
  exact foldlM_count_record_preserves id_noname records [] table hinv h bc m hbc f v hf

/-- C4 witness: three records of one cell, two mapping to feature 0, one
unaligned; both stored entries are 1. -/
theorem C4_counts_are_one_witness :
    bam_to_counttable_counts 2
        [ { name := String.toList "AA_r1", reference_sequence_id := some 0 },
          { name := String.toList "AA_r2", reference_sequence_id := some 0 },
          { name := String.toList "AA_r3", reference_sequence_id := none } ] =
      some [(String.toList "AA", [(0, 1), (2, 1)])] ∧
    lookupAssoc [(String.toList "AA", [(0, 1), (2, 1)])] (String.toList "AA") =
      some [(0, 1), (2, 1)] ∧
    lookupAssoc [(0, 1), (2, 1)] 0 = some 1 ∧
    (1 : Nat) = 1 :=
  ⟨by decide, by decide, by decide,
   C4_counts_are_one 2
     [ { name := String.toList "AA_r1", reference_sequence_id := some 0 },
       { name := String.toList "AA_r2", reference_sequence_id := some 0 },
       { name := String.toList "AA_r3", reference_sequence_id := none } ]
     [(String.toList "AA", [(0, 1), (2, 1)])] (String.toList "AA") [(0, 1), (2, 1)] 0 1
     (by decide) (by decide) (by decide)⟩

/-
Claim C9: sizes and index ranges of the written count-table files.
-/

/-- Index bounds of the rows generated from position `cellid` on: cell
indices lie strictly between `cellid` and `cellid + number of remaining
cells`, and feature indices come from the stored feature keys shifted by
one. -/
theorem matrix_rows_from_bounds (names_len : Nat) :
    ∀ (counts : CountTable) (cellid : Nat) (row : Nat × Nat × Nat),
      row ∈ matrix_rows_from cellid counts →
      (∀ p ∈ counts, ∀ q ∈ p.2, q.1 < names_len) →
      cellid + 1 ≤ row.1 ∧ row.1 ≤ cellid + counts.length ∧
        1 ≤ row.2.1 ∧ row.2.1 ≤ names_len := by
  intro counts
  induction counts with
  | nil =>
    intro cellid row hrow hfeat
    cases hrow
  | cons cell rest ih =>
    intro cellid row hrow hfeat
    unfold matrix_rows_from at hrow
    rw [List.mem_append] at hrow
    cases hrow with
    | inl hin =>
      rw [List.mem_map] at hin
      obtain ⟨q, hq, hrow⟩ := hin
      have hfq : q.1 < names_len := hfeat cell (by simp) q hq
      rw [← hrow]
      refine ⟨?_, ?_, ?_, ?_⟩
      · show cellid + 1 ≤ cellid + 1
        omega
      · show cellid + 1 ≤ cellid + (cell :: rest).length
        simp only [List.length_cons]
        omega
      · show 1 ≤ q.1 + 1
        omega
      · show q.1 + 1 ≤ names_len
        omega
    | inr hin =>
      have := ih (cellid + 1) row hin (fun p hp q hq => hfeat p (by simp [hp]) q hq)
      refine ⟨by omega, ?_, this.2.2.1, this.2.2.2⟩
      have h2 := this.2.1
      simp [List.length_cons]
      omega

/-- C9: writing a table with N cell keys produces exactly N lines in
`barcodes.tsv`, one line per feature-table entry in `features.tsv`
(sentinel included, since the caller appends it to the table), and every
data row of `matrix.mtx` carries 1-based indices with
`1 ≤ cell ≤ N` and `1 ≤ feature ≤ number of feature entries` (the latter
because the aggregator only stores feature keys below the table length). -/
theorem C9_writer_bounds (counts : CountTable) (name_of_features : List (List Char))
    (row : Nat × Nat × Nat)
    (hrow : row ∈ store_counttable_matrix_rows counts)
    (hfeat : ∀ p ∈ counts, ∀ q ∈ p.2, q.1 < name_of_features.length) :
    (store_counttable_barcode_lines counts).length = counts.length ∧
    (store_counttable_feature_lines name_of_features).length = name_of_features.length ∧
    1 ≤ row.1 ∧ row.1 ≤ counts.length ∧
    1 ≤ row.2.1 ∧ row.2.1 ≤ name_of_features.length := by
  have hb := matrix_rows_from_bounds name_of_features.length counts 0 row hrow hfeat
  refine ⟨?_, rfl, hb.1, ?_, hb.2.2.1, hb.2.2.2⟩
  · unfold store_counttable_barcode_lines
    rw [List.length_map]
  · have := hb.2.1
    omega

/-- C9 witness: a two-cell, three-feature table; the row `(1, 3, 1)` stays
within bounds and the line counts match. -/
theorem C9_writer_bounds_witness :
    (1, 3, 1) ∈ store_counttable_matrix_rows
        [(String.toList "AA", [(0, 1), (2, 1)]), (String.toList "CC", [(1, 1)])] ∧
    (store_counttable_barcode_lines
        [(String.toList "AA", [(0, 1), (2, 1)]), (String.toList "CC", [(1, 1)])]).length = 2 ∧
    (store_counttable_feature_lines
        [String.toList "chr1", String.toList "chr2", String.toList "*"]).length = 3 ∧
    1 ≤ 1 ∧ 1 ≤ 2 ∧ 1 ≤ 3 ∧ 3 ≤ 3 :=
  ⟨by decide, by decide, by decide, by decide, by decide, by decide,
   (C9_writer_bounds
      [(String.toList "AA", [(0, 1), (2, 1)]), (String.toList "CC", [(1, 1)])]
      [String.toList "chr1", String.toList "chr2", String.toList "*"]
      (1, 3, 1) (by decide) (by decide)).2.2.2.2.2⟩

/-
Claim C5: histogram counts of the demultiplexing loop.
-/

/-- One loop step bumps the count of the corrected barcode, or nothing. -/
theorem histCount_handle (ab : AtrandiBarcodes) (hist : Hist) (r bc : List Char) :
    histCount (handle_read_pair ab hist r) bc =
      histCount hist bc + (if corrected_to ab bc r then 1 else 0) := by
  unfold handle_read_pair corrected_to
  cases hg : ab.get_correct_bc_from_read r with
  | none => simp
  | some t =>
    rw [histCount_count_barcode]
    by_cases hbc : bc = concat_bc t
    · rw [if_pos hbc, hbc]
      simp
    · rw [if_neg hbc]
      have hne : ¬ (concat_bc t = bc) := fun h => hbc h.symm
      simp [hne]

/-- One loop step adds one to the histogram total exactly when the read
passes correction. -/
theorem histTotal_handle (ab : AtrandiBarcodes) (hist : Hist) (r : List Char) :
    histTotal (handle_read_pair ab hist r) =
      histTotal hist + (if correction_passed ab r then 1 else 0) := by
  unfold handle_read_pair correction_passed
  cases hg : ab.get_correct_bc_from_read r with
  | none => simp
  | some t =>
    rw [histTotal_count_barcode]
    simp

/-- Folding the loop: the count of a barcode grows by the number of reads
that correct to it. -/
theorem histCount_foldl_handle (ab : AtrandiBarcodes) (bc : List Char) :
    ∀ (rs : List (List Char)) (hist : Hist),
      histCount (rs.foldl (handle_read_pair ab) hist) bc =
        histCount hist bc + rs.countP (corrected_to ab bc) := by
  intro rs
  induction rs with
  | nil =>
    intro hist
    rfl
  | cons r t ih =>
    intro hist
    rw [List.foldl_cons, ih, histCount_handle, List.countP_cons]
    by_cases h : corrected_to ab bc r <;> simp [h] <;> omega

/-- Folding the loop: the histogram total grows by the number of reads that
pass correction. -/
theorem histTotal_foldl_handle (ab : AtrandiBarcodes) :
    ∀ (rs : List (List Char)) (hist : Hist),
      histTotal (rs.foldl (handle_read_pair ab) hist) =
        histTotal hist + rs.countP (correction_passed ab) := by
  intro rs
  induction rs with
  | nil =>
    intro hist
    rfl
  | cons r t ih =>
    intro hist
    rw [List.foldl_cons, ih, histTotal_handle, List.countP_cons]
    by_cases h : correction_passed ab r <;> simp [h] <;> omega

/-- Below the early-stop cap, the paired loop is a plain fold over the
second stream. -/
theorem parse_to_fastq_hist_eq_foldl (ab : AtrandiBarcodes) :
    ∀ (r1s r2s : List (List Char)) (c : Nat) (hist : Hist),
      r1s.length = r2s.length → c + r1s.length < 50000000 →
      parse_to_fastq_hist ab c r1s r2s hist =
        DemuxResult.ok (r2s.foldl (handle_read_pair ab) hist) := by
  intro r1s
  induction r1s with
  | nil =>
    intro r2s c hist hlen hcap
    cases r2s with
    | nil => rfl
    | cons r t => simp at hlen
  | cons r1 t1 ih =>
    intro r2s c hist hlen hcap
    cases r2s with
    | nil => simp at hlen
    | cons r2 t2 =>
      unfold parse_to_fastq_hist
      have hc : ¬ (c + 1 = 50000000) := by
        simp only [List.length_cons] at hcap
        omega
      rw [if_neg hc, List.foldl_cons]
      exact ih t2 (c + 1) (handle_read_pair ab hist r2) (by simpa using hlen)
        (by simp only [List.length_cons] at hcap; omega)

/-- On replicated input the loop processes `min n (cap - 1 - c)` pairs: the
pair that makes `read_count` reach 50000000 and everything after it are
dropped. -/
theorem parse_to_fastq_hist_replicate (ab : AtrandiBarcodes) (r1 r2 : List Char) :
    ∀ (n c : Nat) (hist : Hist), c ≤ 49999999 →
      parse_to_fastq_hist ab c (List.replicate n r1) (List.replicate n r2) hist =
        DemuxResult.ok ((List.replicate (min n (49999999 - c)) r2).foldl
          (handle_read_pair ab) hist) := by
  intro n
  induction n with
  | zero =>
    intro c hist hc
    simp [parse_to_fastq_hist, Nat.zero_min]
  | succ n ih =>
    intro c hist hc
    simp only [List.replicate_succ]
    unfold parse_to_fastq_hist
    by_cases hcc : c + 1 = 50000000
    · rw [if_pos hcc]
      have hc9 : 49999999 - c = 0 := by omega
      rw [hc9, Nat.min_zero]
      simp
    · rw [if_neg hcc]
      have hm : min (n + 1) (49999999 - c) = min n (49999999 - (c + 1)) + 1 := by
        omega
      rw [hm, List.replicate_succ, List.foldl_cons]
      exact ih (c + 1) (handle_read_pair ab hist r2) (by omega)

/-- C5 counterexample: on 50000000 identical correcting read pairs the loop
stops early, so the histogram records 49999999 while 50000000 input pairs
correct to that barcode — the claimed equality fails at this input. -/
theorem C5_counterexample :
    parse_to_fastq_hist schemeA 0 (List.replicate 50000000 [])
        (List.replicate 50000000 goodRead) [] =
      DemuxResult.ok ((List.replicate 49999999 goodRead).foldl
        (handle_read_pair schemeA) []) ∧
    histCount ((List.replicate 49999999 goodRead).foldl (handle_read_pair schemeA) [])
      goodBC = 49999999 ∧
    (List.replicate 50000000 goodRead).countP (corrected_to schemeA goodBC) = 50000000 ∧
    (49999999 : Nat) ≠ 50000000 := by
  have hgood : corrected_to schemeA goodBC goodRead = true := by decide
  refine ⟨?_, ?_, ?_, by omega⟩
  · have h := parse_to_fastq_hist_replicate schemeA [] goodRead 50000000 0 [] (by omega)
    have hm : min 50000000 (49999999 - 0) = 49999999 := by omega
    rw [hm] at h
    exact h
  · rw [histCount_foldl_handle, List.countP_replicate, if_pos hgood]
    rfl
  · rw [List.countP_replicate, if_pos hgood]

/-- C5 (amended): for fewer than 50000000 input read pairs (the loop's
early-stop cap), the loop completes, the histogram count of each barcode
equals the number of pairs whose second read corrects to exactly that
barcode, and the histogram total equals the number of pairs that passed
correction. -/
theorem C5_histogram_amended (ab : AtrandiBarcodes) (r1s r2s : List (List Char))
    (bc : List Char)
    (hlen : r1s.length = r2s.length) (hcap : r1s.length < 50000000) :
    parse_to_fastq_hist ab 0 r1s r2s [] =
      DemuxResult.ok (r2s.foldl (handle_read_pair ab) []) ∧
    histCount (r2s.foldl (handle_read_pair ab) []) bc =
      r2s.countP (corrected_to ab bc) ∧
    histTotal (r2s.foldl (handle_read_pair ab) []) =
      r2s.countP (correction_passed ab) := by
  refine ⟨parse_to_fastq_hist_eq_foldl ab r1s r2s 0 [] hlen (by omega), ?_, ?_⟩
  · rw [histCount_foldl_handle]
    simp [histCount, lookupAssoc]
  · rw [histTotal_foldl_handle]
    simp [histTotal]

/-- C5 witness: one pair whose second read corrects to `goodBC`. -/
theorem C5_histogram_amended_witness :
    parse_to_fastq_hist schemeA 0 [[]] [goodRead] [] =
      DemuxResult.ok ([goodRead].foldl (handle_read_pair schemeA) []) ∧
    histCount ([goodRead].foldl (handle_read_pair schemeA) []) goodBC =
      [goodRead].countP (corrected_to schemeA goodBC) ∧
    histTotal ([goodRead].foldl (handle_read_pair schemeA) []) =
      [goodRead].countP (correction_passed schemeA) :=
  C5_histogram_amended schemeA [[]] [goodRead] goodBC (by decide) (by decide)

/-
Claim C8: stream desynchronization.
-/

/-- C8 counterexample: an empty first stream with a non-empty second stream.
The claim says this direction is also a fatal desynchronization error, but
the loop simply ends when the first stream is exhausted and the run
completes normally. -/
theorem C8_counterexample :
    parse_to_fastq_hist schemeA 0 [] [String.toList "A"] [] = DemuxResult.ok [] ∧
    parse_to_fastq_hist schemeA 0 [] [String.toList "A"] [] ≠ DemuxResult.noR2 := by
  decide

/-- C8 (amended): the fatal desynchronization error is raised only in one
direction — when the second stream is exhausted while the first still has a
record; when the first stream is exhausted while the second still has
records, the loop ends normally and the extra records are silently
ignored. -/
theorem C8_desync_amended (ab : AtrandiBarcodes) (r1 : List Char)
    (r1s r2s : List (List Char)) (hist : Hist) :
    parse_to_fastq_hist ab 0 (r1 :: r1s) [] hist = DemuxResult.noR2 ∧
    parse_to_fastq_hist ab 0 [] r2s hist = DemuxResult.ok hist := by
  constructor
  · unfold parse_to_fastq_hist
    rw [if_neg (by omega : ¬ (0 + 1 = 50000000))]
  · rfl
